import Mathlib

/-!
# Verification of the File Explorer shell (`src/main.cpp`)

A shallow embedding of the interactive file-explorer program.  The program is
a read-dispatch loop over eleven commands acting on three pieces of state:

* the host filesystem (modelled as a flat association list from names to
  entries, where a directory carries an emptiness flag),
* the in-memory permission map `permissions` (a `std::map`, modelled as a
  key-sorted association list),
* the one-shot `sudoMode` flag, and the on-disk persistence file
  `.permissions.txt` (modelled as the raw `String` contents).

Filesystem primitives that can throw (`fs::remove`, `fs::create_directory`,
`fs::rename`, `fs::copy_file`) are modelled with `Except Unit`; an exception
escaping a command without a surrounding `try`/`catch` is an abnormal
process termination, modelled by `CmdOutcome.crash`.  The model captures a
flat current directory with opaque names: nested-path effects (for example
creating `a/b` changing the emptiness of `a`) are outside the model, and the
empty path is the modelled reason `create_directory`/`rename`/`copy_file`
fail by throwing.
-/

/-- Kind of a filesystem entry: a regular file, or a directory together with
whether it is currently empty (`fs::is_empty`). -/
inductive FSEntry
  | file
  | dir (empty : Bool)
deriving Repr, DecidableEq

/-- The current directory of the host filesystem: an association list from
names to entries. -/
abbrev FS := List (String × FSEntry)

/-- The in-memory permission map `permissions`, a `std::map<string,string>`:
a name-sorted association list from file names to permission strings. -/
abbrev Store := List (String × String)

/-- Lookup of a filesystem entry by name. -/
def FS.get? : FS → String → Option FSEntry
  | [], _ => none
  | (k, e) :: rest, n => if n = k then some e else FS.get? rest n

/-- Remove every binding of a name from the filesystem listing. -/
def FS.erase : FS → String → FS
  | [], _ => []
  | (k, e) :: rest, n => if n = k then FS.erase rest n else (k, e) :: FS.erase rest n

/-- Create or replace a filesystem entry. -/
def FS.set (fs : FS) (n : String) (e : FSEntry) : FS := (n, e) :: fs.erase n

/-- `fs::exists`: the empty path never exists; otherwise the name must be
present in the current directory. -/
def fsExists (fs : FS) (n : String) : Bool := n ≠ "" && (fs.get? n).isSome

/-- `fs::is_directory`. -/
def fsIsDirectory (fs : FS) (n : String) : Bool :=
  match fs.get? n with
  | some (.dir _) => true
  | _ => false

/-- `fs::is_empty`, consulted only on existing directories. -/
def fsIsEmptyDir (fs : FS) (n : String) : Bool :=
  match fs.get? n with
  | some (.dir e) => e
  | _ => false

/-- `fs::remove`: removing a missing name is a no-op returning `false`;
removing a file or an empty directory succeeds; removing a non-empty
directory fails at the OS level, which the throwing overload used by the
program reports by raising `filesystem_error`. -/
def fsRemove (fs : FS) (n : String) : Except Unit FS :=
  match fs.get? n with
  | none => .ok fs
  | some .file => .ok (fs.erase n)
  | some (.dir true) => .ok (fs.erase n)
  | some (.dir false) => .error ()

/-- `fs::create_directory`: throws on an invalid (empty) path; returns
`false` without error when the name already exists as a directory (P1164);
throws when the name exists but is a regular file (`EEXIST` with a
non-directory target is an error on current toolchains); creates an empty
directory otherwise. -/
def fsCreateDirectory (fs : FS) (n : String) : Except Unit (FS × Bool) :=
  if n = "" then .error ()
  else
    match fs.get? n with
    | some (.dir _) => .ok (fs, false)
    | some .file => .error ()
    | none => .ok (fs.set n (.dir true), true)

/-- `fs::rename`: throws when the destination path is invalid (empty) or the
source is missing; renaming a name onto itself is a successful no-op; an
existing destination is overwritten only when the kinds allow it (file onto
file, directory onto empty directory) and the call fails otherwise
(`EISDIR`/`ENOTDIR`/`ENOTEMPTY`). -/
def fsRename (fs : FS) (src dest : String) : Except Unit FS :=
  if dest = "" then .error ()
  else
    match fs.get? src with
    | none => .error ()
    | some e =>
      if src = dest then .ok fs
      else
        match e, fs.get? dest with
        | _, none => .ok ((fs.erase src).set dest e)
        | .file, some .file => .ok ((fs.erase src).set dest e)
        | .file, some (.dir _) => .error ()
        | .dir _, some .file => .error ()
        | .dir _, some (.dir true) => .ok ((fs.erase src).set dest e)
        | .dir _, some (.dir false) => .error ()

/-- `fs::copy_file` with `overwrite_existing`: throws when the destination
path is invalid, source and destination are the same file, the source is not
a regular file, or the destination exists and is not a regular file. -/
def fsCopyFile (fs : FS) (src dest : String) : Except Unit FS :=
  if dest = "" || src = dest then .error ()
  else
    match fs.get? src, fs.get? dest with
    | some .file, none => .ok (fs.set dest .file)
    | some .file, some .file => .ok (fs.set dest .file)
    | _, _ => .error ()

/-- Lookup in the permission map (`permissions.count` / `permissions[...]`
on a present key). -/
def Store.get? : Store → String → Option String
  | [], _ => none
  | (k, v) :: rest, n => if n = k then some v else Store.get? rest n

/-- Lexicographic comparison of character sequences, the `std::string`
`operator<` that orders the keys of a `std::map<std::string, ...>`. -/
def lexLt : List Char → List Char → Bool
  | [], [] => false
  | [], _ :: _ => true
  | _ :: _, [] => false
  | a :: as, b :: bs =>
    if a.toNat < b.toNat then true
    else if b.toNat < a.toNat then false
    else lexLt as bs

/-- `std::string` comparison on whole strings. -/
def strLt (a b : String) : Bool := lexLt a.data b.data

/-- `permissions[k] = v`: sorted insertion, keeping the `std::map` ordered
by key and replacing the value of an existing key. -/
def Store.set : Store → String → String → Store
  | [], k, v => [(k, v)]
  | (p, w) :: rest, k, v =>
    if k = p then (k, v) :: rest
    else if strLt k p then (k, v) :: (p, w) :: rest
    else (p, w) :: Store.set rest k v

/-- `permissions.erase(k)`. -/
def Store.erase : Store → String → Store
  | [], _ => []
  | (p, w) :: rest, k => if k = p then Store.erase rest k else (p, w) :: Store.erase rest k

/-- `getPermission`: the stored permission string, or the fallback literal
`"-rw-r--r--"` when the name has no entry (`main.cpp` lines 46-49). -/
def getPermission (st : Store) (file : String) : String :=
  match st.get? file with
  | some p => p
  | none => "-rw-r--r--"

/-- `s[i]` on a `std::string`: character at byte index `i`.  Every stored
string the program indexes has length at least 3 except the empty string,
for which the C++ read is out of bounds; the model returns the NUL
character there. -/
def strAt (s : String) (i : Nat) : Char := s.data.getD i (Char.ofNat 0)

/-- The characters `operator>>` treats as whitespace separators (space,
horizontal tab, newline, carriage return, vertical tab, form feed). -/
def isWS (c : Char) : Bool :=
  c = ' ' || c = '\t' || c = '\n' || c = '\r' || c = Char.ofNat 11 || c = Char.ofNat 12

/-- `savePermissions` (`main.cpp` lines 39-44): one `"<name> <perm>\n"` line
per entry, in the map's key order, as the character sequence written to the
file. -/
def saveChars : Store → List Char
  | [] => []
  | (k, v) :: rest => k.data ++ ' ' :: (v.data ++ '\n' :: saveChars rest)

/-- The full contents written to `.permissions.txt` by `savePermissions`. -/
def savePermissions (st : Store) : String := String.mk (saveChars st)

/-- Stream token extraction: split a character sequence into maximal runs of
non-whitespace characters, as repeated `operator>>` on a string does.  The
accumulator holds the current token's characters in reverse. -/
def tokenizeAux : List Char → List Char → List String
  | [], [] => []
  | [], acc => [String.mk acc.reverse]
  | c :: cs, acc =>
    if isWS c then
      match acc with
      | [] => tokenizeAux cs []
      | _ => String.mk acc.reverse :: tokenizeAux cs []
    else tokenizeAux cs (c :: acc)

/-- All whitespace-separated tokens of a string. -/
def tokenize (s : String) : List String := tokenizeAux s.data []

/-- The read loop of `loadPermissions`: consume tokens two at a time as
`(name, permission)` pairs, later occurrences of a name overwriting earlier
ones, stopping when fewer than two tokens remain. -/
def loadPairs : Store → List String → Store
  | st, file :: perm :: rest => loadPairs (st.set file perm) rest
  | st, _ => st

/-- `loadPermissions` applied to the contents of the persistence file,
starting from an empty map (`main.cpp` lines 30-37). -/
def loadPermissions (content : String) : Store := loadPairs [] (tokenize content)

/-- The mutable session state: filesystem, permission map, `sudoMode`, and
the contents of the on-disk persistence file. -/
structure SysState where
  fs : FS
  store : Store
  sudoMode : Bool
  disk : String
deriving Repr, DecidableEq

/-- The status line a command prints (colors elided). -/
inductive Msg
  | listing | created | createFailed | notFound | notADirectory | dirRemoved
  | dirNotEmpty | fileNotFound | permissionDenied | deleted | chmodUsage
  | chmodChanged | permShown | permissionDeniedNoRead | copied | copyFailed
  | permissionDeniedNoWrite | moved | moveFailed | sudoActive | helpShown
  | unknownCmd
deriving Repr, DecidableEq

/-- Result of one command handler: a completed run with its printed status
line, or an exception escaping the handler and aborting the process. -/
inductive CmdOutcome
  | ok (s : SysState) (m : Msg)
  | crash
deriving Repr, DecidableEq

/-- `listFiles` (`main.cpp` lines 66-72): prints each entry with its stored
or fallback permission; reads but never writes the state. -/
def listFiles (s : SysState) : CmdOutcome := .ok s .listing

/-- `makeDir` (`main.cpp` lines 74-80). -/
def makeDir (s : SysState) (name : String) : CmdOutcome :=
  match fsCreateDirectory s.fs name with
  | .error _ => .crash
  | .ok (fs2, true) =>
    let st := s.store.set name "drwxr-xr-x"
    .ok { s with fs := fs2, store := st, disk := savePermissions st } .created
  | .ok (fs2, false) => .ok { s with fs := fs2 } .createFailed

/-- `removeDir` (`main.cpp` lines 82-91). -/
def removeDir (s : SysState) (name : String) : CmdOutcome :=
  if !fsExists s.fs name then .ok s .notFound
  else if !fsIsDirectory s.fs name then .ok s .notADirectory
  else if fsIsEmptyDir s.fs name then
    let st := s.store.erase name
    .ok { s with fs := s.fs.erase name, store := st, disk := savePermissions st } .dirRemoved
  else .ok s .dirNotEmpty

/-- `deleteFile` (`main.cpp` lines 93-102): note the bare `fs::remove` with
no surrounding `try`/`catch`. -/
def deleteFile (s : SysState) (name : String) : CmdOutcome :=
  if !fsExists s.fs name then .ok s .fileNotFound
  else if !s.sudoMode && strAt (getPermission s.store name) 2 != 'w' then
    .ok s .permissionDenied
  else
    match fsRemove s.fs name with
    | .error _ => .crash
    | .ok fs2 =>
      let st := s.store.erase name
      .ok { s with fs := fs2, store := st, disk := savePermissions st } .deleted

/-- The `conv` lambda inside `chmodFile`: one 4-character group per code
character, `n = c - '0'` decoded as two's-complement bit tests. -/
def chmodConv (c : Char) (dir : Bool) : String :=
  String.mk
    [if dir then 'd' else '-',
     if Int.land ((c.toNat : Int) - 48) 4 ≠ 0 then 'r' else '-',
     if Int.land ((c.toNat : Int) - 48) 2 ≠ 0 then 'w' else '-',
     if Int.land ((c.toNat : Int) - 48) 1 ≠ 0 then 'x' else '-']

/-- The full permission string `chmodFile` computes and stores. -/
def chmodString (permCode : String) (isDir : Bool) : String :=
  chmodConv (strAt permCode 0) isDir ++ chmodConv (strAt permCode 1) false
    ++ chmodConv (strAt permCode 2) false

/-- `chmodFile` (`main.cpp` lines 104-123). -/
def chmodFile (s : SysState) (name permCode : String) : CmdOutcome :=
  if !fsExists s.fs name then .ok s .notFound
  else if permCode.length ≠ 3 then .ok s .chmodUsage
  else
    let st := s.store.set name (chmodString permCode (fsIsDirectory s.fs name))
    .ok { s with store := st, disk := savePermissions st } .chmodChanged

/-- `showPerm` (`main.cpp` lines 125-128). -/
def showPerm (s : SysState) (name : String) : CmdOutcome :=
  if !fsExists s.fs name then .ok s .notFound else .ok s .permShown

/-- `copyFileCmd` (`main.cpp` lines 130-143): the filesystem call is inside
`try`/`catch`, so a copy failure prints and continues. -/
def copyFileCmd (s : SysState) (src dest : String) : CmdOutcome :=
  if !fsExists s.fs src then .ok s .notFound
  else if !s.sudoMode && strAt (getPermission s.store src) 1 != 'r' then
    .ok s .permissionDeniedNoRead
  else
    match fsCopyFile s.fs src dest with
    | .error _ => .ok s .copyFailed
    | .ok fs2 =>
      let st := s.store.set dest (getPermission s.store src)
      .ok { s with fs := fs2, store := st, disk := savePermissions st } .copied

/-- `moveFileCmd` (`main.cpp` lines 145-159): on success the store update is
`permissions[dest] = permissions[src]` — `operator[]`, which
default-constructs an empty string for an absent source key — followed by
`permissions.erase(src)`. -/
def moveFileCmd (s : SysState) (src dest : String) : CmdOutcome :=
  if !fsExists s.fs src then .ok s .notFound
  else if !s.sudoMode && strAt (getPermission s.store src) 2 != 'w' then
    .ok s .permissionDeniedNoWrite
  else
    match fsRename s.fs src dest with
    | .error _ => .ok s .moveFailed
    | .ok fs2 =>
      let v := match s.store.get? src with
        | some w => w
        | none => ""
      let st := ((s.store.set src v).set dest v).erase src
      .ok { s with fs := fs2, store := st, disk := savePermissions st } .moved

/-- Result of one iteration of the read-dispatch loop. -/
inductive IterResult
  | next (s : SysState)
  | exited
  | crashed
deriving Repr, DecidableEq

/-- The unconditional `sudoMode = false` at the bottom of the loop body
(`main.cpp` line 219), applied to every completed command. -/
def endIter : CmdOutcome → IterResult
  | .ok s _ => .next { s with sudoMode := false }
  | .crash => .crashed

/-- One dispatch over the parsed tokens `cmd`, `arg1`, `arg2`
(`main.cpp` lines 202-219).  The empty command hits `continue`, which skips
the `sudoMode` reset at the bottom of the loop. -/
def dispatch (s : SysState) (cmd arg1 arg2 : String) : IterResult :=
  if cmd = "exit" then .exited
  else if cmd = "ls" then endIter (listFiles s)
  else if cmd = "mkdir" then endIter (makeDir s arg1)
  else if cmd = "rmdir" then endIter (removeDir s arg1)
  else if cmd = "del" then endIter (deleteFile s arg1)
  else if cmd = "chmod" then endIter (chmodFile s arg1 arg2)
  else if cmd = "perm" then endIter (showPerm s arg1)
  else if cmd = "cp" then endIter (copyFileCmd s arg1 arg2)
  else if cmd = "mv" then endIter (moveFileCmd s arg1 arg2)
  else if cmd = "help" then endIter (.ok s .helpShown)
  else if cmd = "sudo" then endIter (.ok { s with sudoMode := true } .sudoActive)
  else if cmd = "" then .next s
  else endIter (.ok s .unknownCmd)

/-- One full loop iteration on an input line: split into at most three
tokens (missing ones become empty strings, extra ones are discarded) and
dispatch. -/
def iterate (s : SysState) (line : String) : IterResult :=
  dispatch s ((tokenize line).getD 0 "") ((tokenize line).getD 1 "")
    ((tokenize line).getD 2 "")

/-- Result of running the loop over a whole list of input lines. -/
inductive RunResult
  | running (s : SysState)
  | exited
  | crashed
deriving Repr, DecidableEq

/-- Run the read-dispatch loop over a list of input lines. -/
def runLines : SysState → List String → RunResult
  | s, [] => .running s
  | s, line :: rest =>
    match iterate s line with
    | .next s2 => runLines s2 rest
    | .exited => .exited
    | .crashed => .crashed

/-- Process start in a directory with no persistence file: `loadPermissions`
finds nothing, `sudoMode` starts false. -/
def initState (fs0 : FS) : SysState :=
  { fs := fs0, store := [], sudoMode := false, disk := "" }

/-- A session state reachable from a fresh start by some sequence of input
lines. -/
def ReachableState (s : SysState) : Prop :=
  ∃ fs0 lines, runLines (initState fs0) lines = .running s

/-- A permission-map state reachable through the program's operations. -/
def ReachableStore (st : Store) : Prop :=
  ∃ s, ReachableState s ∧ s.store = st

/-- The permission map recorded by a completed command, if it completed. -/
def CmdOutcome.storeAfter? : CmdOutcome → Option Store
  | .ok s _ => some s.store
  | .crash => none

/-! ## Order properties of the key comparison -/

/-- Characters with equal codepoints are equal. -/
theorem Char.eq_of_toNat_eq {a b : Char} (h : a.toNat = b.toNat) : a = b :=
  Char.eq_of_val_eq (UInt32.ext h)

theorem lexLt_irrefl : ∀ l : List Char, lexLt l l = false
  | [] => rfl
  | a :: as => by
    simp only [lexLt, Nat.lt_irrefl, if_false]
    exact lexLt_irrefl as

theorem lexLt_trans : ∀ {a b c : List Char},
    lexLt a b = true → lexLt b c = true → lexLt a c = true
  | [], [], _, h1, _ => by cases h1
  | [], _ :: _, [], _, h2 => by cases h2
  | [], _ :: _, _ :: _, _, _ => rfl
  | _ :: _, [], _, h1, _ => by cases h1
  | _ :: _, _ :: _, [], _, h2 => by cases h2
  | x :: xs, y :: ys, z :: zs, h1, h2 => by
    simp only [lexLt] at h1 h2 ⊢
    rcases Nat.lt_trichotomy x.toNat y.toNat with hxy | hxy | hxy
    · rcases Nat.lt_trichotomy y.toNat z.toNat with hyz | hyz | hyz
      · rw [if_pos (Nat.lt_trans hxy hyz)]
      · rw [if_pos (hyz ▸ hxy)]
      · rw [if_neg (Nat.lt_asymm hyz), if_pos hyz] at h2
        exact Bool.noConfusion h2
    · rw [if_neg (by omega), if_neg (by omega)] at h1
      rcases Nat.lt_trichotomy y.toNat z.toNat with hyz | hyz | hyz
      · rw [if_pos (by omega)]
      · rw [if_neg (by omega), if_neg (by omega)] at h2
        rw [if_neg (by omega), if_neg (by omega)]
        exact lexLt_trans h1 h2
      · rw [if_neg (Nat.lt_asymm hyz), if_pos hyz] at h2
        exact Bool.noConfusion h2
    · rw [if_neg (Nat.lt_asymm hxy), if_pos hxy] at h1
      exact Bool.noConfusion h1

theorem lexLt_ne {a b : List Char} (h : lexLt a b = true) : a ≠ b := by
  intro he
  rw [he, lexLt_irrefl] at h
  exact Bool.noConfusion h

theorem lexLt_asymm {a b : List Char} (h : lexLt a b = true) : lexLt b a = false := by
  cases hba : lexLt b a with
  | false => rfl
  | true => exact absurd (lexLt_trans h hba) (by simp [lexLt_irrefl])

theorem lexLt_total : ∀ {a b : List Char}, a ≠ b → lexLt a b = false → lexLt b a = true
  | [], [], hne, _ => absurd rfl hne
  | [], _ :: _, _, h => Bool.noConfusion h
  | _ :: _, [], _, _ => rfl
  | x :: xs, y :: ys, hne, h => by
    simp only [lexLt] at h ⊢
    rcases Nat.lt_trichotomy x.toNat y.toNat with hxy | hxy | hxy
    · rw [if_pos hxy] at h
      exact Bool.noConfusion h
    · have hx : x = y := Char.eq_of_toNat_eq hxy
      subst hx
      rw [if_neg (by omega), if_neg (by omega)] at h
      rw [if_neg (by omega), if_neg (by omega)]
      refine lexLt_total (fun he => hne (by rw [he])) h
    · rw [if_pos hxy]

theorem strLt_irrefl (a : String) : strLt a a = false := lexLt_irrefl a.data

theorem strLt_trans {a b c : String} (h1 : strLt a b = true) (h2 : strLt b c = true) :
    strLt a c = true := lexLt_trans h1 h2

theorem strLt_ne {a b : String} (h : strLt a b = true) : a ≠ b := by
  intro he
  rw [he, strLt_irrefl] at h
  exact Bool.noConfusion h

theorem strLt_asymm {a b : String} (h : strLt a b = true) : strLt b a = false :=
  lexLt_asymm h

theorem strLt_total {a b : String} (hne : a ≠ b) (h : strLt a b = false) : strLt b a = true :=
  lexLt_total (fun he => hne (String.ext he)) h

/-! ## Permission-map lemmas -/

/-- The key order maintained by the `std::map` model. -/
def StoreSorted (st : Store) : Prop := st.Pairwise (fun p q => strLt p.1 q.1 = true)

theorem Store.get?_set_self : ∀ (st : Store) (k v : String), (st.set k v).get? k = some v
  | [], k, v => by simp [Store.set, Store.get?]
  | (p, w) :: rest, k, v => by
    simp only [Store.set]
    by_cases h1 : k = p
    · simp [h1, Store.get?]
    · rw [if_neg h1]
      by_cases h2 : strLt k p = true
      · simp [h2, Store.get?]
      · simp only [h2, if_false, Store.get?, if_neg h1]
        exact Store.get?_set_self rest k v

theorem Store.get?_set_ne : ∀ (st : Store) (k v n : String), n ≠ k →
    (st.set k v).get? n = st.get? n
  | [], k, v, n, hne => by simp [Store.set, Store.get?, hne]
  | (p, w) :: rest, k, v, n, hne => by
    simp only [Store.set]
    by_cases h1 : k = p
    · subst h1
      simp [Store.get?, hne]
    · rw [if_neg h1]
      by_cases h2 : strLt k p = true
      · simp only [h2, if_true, Store.get?, if_neg hne]
      · simp only [h2, if_false, Store.get?]
        by_cases h3 : n = p
        · simp [h3]
        · rw [if_neg h3, if_neg h3]
          exact Store.get?_set_ne rest k v n hne

theorem Store.get?_erase_self : ∀ (st : Store) (k : String), (st.erase k).get? k = none
  | [], _ => rfl
  | (p, w) :: rest, k => by
    simp only [Store.erase]
    by_cases h1 : k = p
    · rw [if_pos h1]
      exact Store.get?_erase_self rest k
    · rw [if_neg h1]
      simp only [Store.get?, if_neg h1]
      exact Store.get?_erase_self rest k

theorem Store.get?_erase_ne : ∀ (st : Store) (k n : String), n ≠ k →
    (st.erase k).get? n = st.get? n
  | [], _, _, _ => rfl
  | (p, w) :: rest, k, n, hne => by
    simp only [Store.erase]
    by_cases h1 : k = p
    · subst h1
      simp only [Store.get?, if_neg hne]
      exact Store.get?_erase_ne rest k n hne
    · rw [if_neg h1]
      simp only [Store.get?]
      by_cases h3 : n = p
      · simp [h3]
      · rw [if_neg h3, if_neg h3]
        exact Store.get?_erase_ne rest k n hne

theorem Store.mem_set : ∀ (st : Store) (k v : String) (q : String × String),
    q ∈ st.set k v → q ∈ st ∨ q = (k, v)
  | [], k, v, q, hq => by
    simp [Store.set] at hq
    exact Or.inr hq
  | (p, w) :: rest, k, v, q, hq => by
    simp only [Store.set] at hq
    by_cases h1 : k = p
    · rw [if_pos h1] at hq
      rcases List.mem_cons.mp hq with h | h
      · exact Or.inr h
      · exact Or.inl (List.mem_cons_of_mem _ h)
    · rw [if_neg h1] at hq
      by_cases h2 : strLt k p = true
      · rw [if_pos h2] at hq
        rcases List.mem_cons.mp hq with h | h
        · exact Or.inr h
        · exact Or.inl h
      · simp only [h2, if_false] at hq
        rcases List.mem_cons.mp hq with h | h
        · exact Or.inl (List.mem_cons.mpr (Or.inl h))
        · rcases Store.mem_set rest k v q h with h3 | h3
          · exact Or.inl (List.mem_cons_of_mem _ h3)
          · exact Or.inr h3

theorem Store.erase_sublist : ∀ (st : Store) (k : String), (st.erase k).Sublist st
  | [], _ => List.Sublist.refl []
  | (p, w) :: rest, k => by
    simp only [Store.erase]
    by_cases h1 : k = p
    · rw [if_pos h1]
      exact (Store.erase_sublist rest k).cons _
    · rw [if_neg h1]
      exact (Store.erase_sublist rest k).cons₂ _

theorem storeSorted_erase {st : Store} (h : StoreSorted st) (k : String) :
    StoreSorted (st.erase k) :=
  List.Pairwise.sublist (Store.erase_sublist st k) h

theorem storeSorted_set : ∀ {st : Store}, StoreSorted st → ∀ (k v : String),
    StoreSorted (st.set k v)
  | [], _, k, v => by simp [Store.set, StoreSorted]
  | (p, w) :: rest, h, k, v => by
    rw [StoreSorted, List.pairwise_cons] at h
    obtain ⟨hp, hrest⟩ := h
    simp only [Store.set]
    by_cases h1 : k = p
    · rw [if_pos h1, StoreSorted, List.pairwise_cons]
      exact ⟨fun q hq => h1 ▸ hp q hq, hrest⟩
    · rw [if_neg h1]
      by_cases h2 : strLt k p = true
      · rw [if_pos h2, StoreSorted, List.pairwise_cons]
        refine ⟨?_, List.Pairwise.cons hp hrest⟩
        intro q hq
        rcases List.mem_cons.mp hq with h3 | h3
        · rw [h3]
          exact h2
        · exact strLt_trans h2 (hp q h3)
      · rw [if_neg h2, StoreSorted, List.pairwise_cons]
        refine ⟨?_, storeSorted_set hrest k v⟩
        intro q hq
        rcases Store.mem_set rest k v q hq with h3 | h3
        · exact hp q h3
        · rw [h3]
          exact strLt_total (fun he => h1 he) (Bool.eq_false_iff.mpr h2)

/-! ## Tokenisation and the save/load round trip -/

/-- A string containing no stream-separator whitespace. -/
def wsFreeB (s : String) : Bool := s.data.all (fun c => !isWS c)

/-- Well-formedness of one permission-map entry as maintained by the
program: a nonempty, whitespace-free name and a whitespace-free value. -/
def entryOK (p : String × String) : Bool := (p.1 != "") && wsFreeB p.1 && wsFreeB p.2

/-- The invariant of the in-memory permission map: keys sorted and all
entries well-formed. -/
def StoreOK (st : Store) : Prop := StoreSorted st ∧ st.all entryOK = true

/-- The token stream a store's saved file parses back into. -/
def flattenStore : Store → List String
  | [] => []
  | (k, v) :: rest => k :: v :: flattenStore rest

theorem tokenizeAux_nonws : ∀ (cs : List Char), (∀ c ∈ cs, isWS c = false) →
    ∀ (rest acc : List Char),
    tokenizeAux (cs ++ rest) acc = tokenizeAux rest (cs.reverse ++ acc)
  | [], _, rest, acc => by simp
  | c :: cs, h, rest, acc => by
    have hc : isWS c = false := h c (List.mem_cons_self c cs)
    have ih := tokenizeAux_nonws cs (fun d hd => h d (List.mem_cons_of_mem c hd)) rest (c :: acc)
    simp only [List.cons_append, tokenizeAux, hc, Bool.false_eq_true, if_false]
    rw [List.append_eq, ih]
    simp

theorem tokenizeAux_ws (w : Char) (hw : isWS w = true) (rest acc : List Char)
    (hacc : acc ≠ []) :
    tokenizeAux (w :: rest) acc = String.mk acc.reverse :: tokenizeAux rest [] := by
  cases acc with
  | nil => exact absurd rfl hacc
  | cons a as => simp only [tokenizeAux, hw, if_true]

/-- A nonempty string has a nonempty character list. -/
theorem data_ne_nil {s : String} (h : s ≠ "") : s.data ≠ [] := by
  intro hd
  exact h (String.ext hd)

theorem tokenize_saveChars : ∀ st : Store,
    (∀ p ∈ st, p.1 ≠ "" ∧ wsFreeB p.1 = true ∧ p.2 ≠ "" ∧ wsFreeB p.2 = true) →
    tokenizeAux (saveChars st) [] = flattenStore st
  | [], _ => rfl
  | (k, v) :: rest, h => by
    obtain ⟨hk, hkws, hv, hvws⟩ := h (k, v) (List.mem_cons_self _ _)
    have hkws2 : ∀ c ∈ k.data, isWS c = false := by
      intro c hc
      have := List.all_eq_true.mp hkws c hc
      simpa using this
    have hvws2 : ∀ c ∈ v.data, isWS c = false := by
      intro c hc
      have := List.all_eq_true.mp hvws c hc
      simpa using this
    have hknil : k.data.reverse ++ [] ≠ [] := by
      simp only [List.append_nil]
      intro hr
      exact data_ne_nil hk (by simpa using congrArg List.reverse hr)
    have hvnil : v.data.reverse ++ [] ≠ [] := by
      simp only [List.append_nil]
      intro hr
      exact data_ne_nil hv (by simpa using congrArg List.reverse hr)
    simp only [saveChars, flattenStore]
    rw [tokenizeAux_nonws k.data hkws2 _ []]
    rw [tokenizeAux_ws ' ' (by decide) _ _ hknil]
    have hmk : String.mk (k.data.reverse ++ []).reverse = k := by
      simp only [List.append_nil, List.reverse_reverse]
    rw [hmk]
    rw [tokenizeAux_nonws v.data hvws2 _ []]
    rw [tokenizeAux_ws '\n' (by decide) _ _ hvnil]
    have hmv : String.mk (v.data.reverse ++ []).reverse = v := by
      simp only [List.append_nil, List.reverse_reverse]
    rw [hmv]
    rw [tokenize_saveChars rest (fun p hp => h p (List.mem_cons_of_mem _ hp))]

theorem loadPairs_flatten : ∀ (l : Store) (acc : Store),
    loadPairs acc (flattenStore l) = List.foldl (fun a p => a.set p.1 p.2) acc l
  | [], acc => rfl
  | (k, v) :: rest, acc => by
    simp only [flattenStore, loadPairs, List.foldl_cons]
    exact loadPairs_flatten rest (acc.set k v)

theorem Store.set_append_gt : ∀ (st : Store) (k v : String),
    (∀ p ∈ st, strLt p.1 k = true) → st.set k v = st ++ [(k, v)]
  | [], k, v, _ => rfl
  | (p, w) :: rest, k, v, h => by
    have hp : strLt p k = true := h (p, w) (List.mem_cons_self _ _)
    simp only [Store.set]
    rw [if_neg (fun he => strLt_ne hp he.symm), if_neg (by simp [strLt_asymm hp])]
    rw [Store.set_append_gt rest k v (fun q hq => h q (List.mem_cons_of_mem _ hq))]
    simp

theorem foldl_set_of_sorted : ∀ (st acc : Store), StoreSorted (acc ++ st) →
    List.foldl (fun a p => a.set p.1 p.2) acc st = acc ++ st
  | [], acc, _ => by simp
  | (k, v) :: rest, acc, h => by
    have hgt : ∀ p ∈ acc, strLt p.1 k = true := by
      intro p hp
      have := (List.pairwise_append.mp h).2.2 p hp (k, v) (List.mem_cons_self _ _)
      exact this
    simp only [List.foldl_cons]
    rw [Store.set_append_gt acc k v hgt]
    rw [foldl_set_of_sorted rest (acc ++ [(k, v)]) (by simpa using h)]
    simp

/-- The save/load round trip at the heart of §8 of the spec: a sorted store
whose names and values are nonempty and whitespace-free is reproduced
exactly by writing it out and parsing the file back. -/
theorem roundtrip_of_ok (st : Store) (hs : StoreSorted st)
    (h : ∀ p ∈ st, p.1 ≠ "" ∧ wsFreeB p.1 = true ∧ p.2 ≠ "" ∧ wsFreeB p.2 = true) :
    loadPermissions (savePermissions st) = st := by
  rw [loadPermissions, savePermissions, tokenize]
  have hdata : (String.mk (saveChars st)).data = saveChars st := rfl
  rw [hdata, tokenize_saveChars st h, loadPairs_flatten st []]
  exact foldl_set_of_sorted st [] (by simpa using hs)

/-! ## Well-formedness of tokens and of reachable permission maps -/

/-- A token built from a nonempty run of non-whitespace characters is a
nonempty whitespace-free string. -/
theorem token_mk_ok {a : Char} {as : List Char} (hacc : ∀ c ∈ a :: as, isWS c = false) :
    String.mk (a :: as).reverse ≠ "" ∧ wsFreeB (String.mk (a :: as).reverse) = true := by
  constructor
  · intro he
    have hdd : ((a :: as).reverse : List Char) = [] := congrArg String.data he
    simp at hdd
  · rw [wsFreeB, List.all_eq_true]
    intro c hc
    have := hacc c (List.mem_reverse.mp hc)
    simp [this]

/-- Unfolding equation for `tokenizeAux` on a `cons`. -/
theorem tokenizeAux_cons (c : Char) (cs acc : List Char) :
    tokenizeAux (c :: cs) acc = if isWS c then
      (match acc with
        | [] => tokenizeAux cs []
        | _ => String.mk acc.reverse :: tokenizeAux cs [])
      else tokenizeAux cs (c :: acc) := rfl

theorem tokenizeAux_tokens : ∀ (cs acc : List Char), (∀ c ∈ acc, isWS c = false) →
    ∀ t ∈ tokenizeAux cs acc, t ≠ "" ∧ wsFreeB t = true
  | [], [], _, t, ht => by cases ht
  | [], a :: as, hacc, t, ht => by
    have ht2 : t ∈ [String.mk (a :: as).reverse] := ht
    rcases List.mem_singleton.mp ht2 with rfl
    exact token_mk_ok hacc
  | c :: cs, acc, hacc, t, ht => by
    rw [tokenizeAux_cons] at ht
    have ht2 := ht
    by_cases hc : isWS c = true
    · rw [if_pos hc] at ht2
      cases acc with
      | nil =>
        exact tokenizeAux_tokens cs [] (by simp) t ht2
      | cons a as =>
        have ht3 : t ∈ String.mk (a :: as).reverse :: tokenizeAux cs [] := ht2
        rcases List.mem_cons.mp ht3 with rfl | ht4
        · exact token_mk_ok hacc
        · exact tokenizeAux_tokens cs [] (by simp) t ht4
    · rw [if_neg hc] at ht2
      refine tokenizeAux_tokens cs (c :: acc) ?_ t ht2
      intro d hd
      rcases List.mem_cons.mp hd with rfl | hd2
      · exact Bool.eq_false_iff.mpr hc
      · exact hacc d hd2

theorem tokenize_tokens (line : String) : ∀ t ∈ tokenize line, t ≠ "" ∧ wsFreeB t = true :=
  tokenizeAux_tokens line.data [] (by simp)

theorem wsFreeB_empty : wsFreeB "" = true := rfl

theorem getD_token_wsFree {l : List String} (hl : ∀ t ∈ l, t ≠ "" ∧ wsFreeB t = true)
    (i : Nat) : wsFreeB (l.getD i "") = true := by
  rcases h : l.get? i with _ | t
  · rw [List.getD_eq_getElem?_getD, List.get?_eq_getElem? ] at *
    rw [h]
    exact wsFreeB_empty
  · have hm := List.get?_mem h
    rw [List.getD_eq_getElem?_getD, ← List.get?_eq_getElem?, h]
    exact (hl t hm).2

theorem entryOK_intro {k v : String} (hk : k ≠ "") (hkw : wsFreeB k = true)
    (hvw : wsFreeB v = true) : entryOK (k, v) = true := by
  simp [entryOK, hk, hkw, hvw]

theorem storeOK_set {st : Store} (h : StoreOK st) {k v : String} (hk : k ≠ "")
    (hkw : wsFreeB k = true) (hvw : wsFreeB v = true) : StoreOK (st.set k v) := by
  refine ⟨storeSorted_set h.1 k v, ?_⟩
  rw [List.all_eq_true]
  intro p hp
  rcases Store.mem_set st k v p hp with h1 | h1
  · exact List.all_eq_true.mp h.2 p h1
  · rw [h1]
    exact entryOK_intro hk hkw hvw

theorem storeOK_erase {st : Store} (h : StoreOK st) (k : String) : StoreOK (st.erase k) := by
  refine ⟨storeSorted_erase h.1 k, ?_⟩
  rw [List.all_eq_true]
  intro p hp
  exact List.all_eq_true.mp h.2 p ((Store.erase_sublist st k).subset hp)

theorem Store.get?_mem : ∀ (st : Store) (n v : String), st.get? n = some v → (n, v) ∈ st
  | [], _, _, h => by cases h
  | (p, w) :: rest, n, v, h => by
    rw [Store.get?] at h
    by_cases h1 : n = p
    · rw [if_pos h1] at h
      injection h with h
      rw [h1, h]
      exact List.mem_cons_self _ _
    · rw [if_neg h1] at h
      exact List.mem_cons_of_mem _ (Store.get?_mem rest n v h)

theorem entryOK_facts {st : Store} (h : StoreOK st) {p : String × String} (hp : p ∈ st) :
    p.1 ≠ "" ∧ wsFreeB p.1 = true ∧ wsFreeB p.2 = true := by
  have := List.all_eq_true.mp h.2 p hp
  rw [entryOK] at this
  simp only [Bool.and_eq_true, bne_iff_ne] at this
  exact ⟨this.1.1, this.1.2, this.2⟩

theorem getPermission_wsFree {st : Store} (h : StoreOK st) (n : String) :
    wsFreeB (getPermission st n) = true := by
  rw [getPermission]
  rcases hg : st.get? n with _ | v
  · decide
  · exact (entryOK_facts h (Store.get?_mem st n v hg)).2.2

/-! ## Facts extracted from successful filesystem primitives -/

theorem fsCreateDirectory_ok_ne {fs : FS} {n : String} {x : FS × Bool}
    (h : fsCreateDirectory fs n = .ok x) : n ≠ "" := by
  intro he
  subst he
  rw [fsCreateDirectory, if_pos rfl] at h
  cases h

theorem fsRename_ok_ne {fs : FS} {src dest : String} {fs2 : FS}
    (h : fsRename fs src dest = .ok fs2) : dest ≠ "" := by
  intro he
  subst he
  rw [fsRename, if_pos rfl] at h
  cases h

theorem fsCopyFile_ok_ne {fs : FS} {src dest : String} {fs2 : FS}
    (h : fsCopyFile fs src dest = .ok fs2) : dest ≠ "" := by
  intro he
  subst he
  rw [fsCopyFile] at h
  simp at h

theorem fsExists_true {fs : FS} {n : String} (h : fsExists fs n = true) :
    n ≠ "" ∧ (fs.get? n).isSome = true := by
  rw [fsExists, Bool.and_eq_true] at h
  exact ⟨by simpa using h.1, h.2⟩

/-! ## The computed chmod string is whitespace-free -/

theorem isWS_ite (c : Prop) [Decidable c] (a b : Char) (ha : isWS a = false)
    (hb : isWS b = false) : isWS (if c then a else b) = false := by
  split
  · exact ha
  · exact hb

theorem chmodConv_wsFree (c : Char) (d : Bool) : wsFreeB (chmodConv c d) = true := by
  rw [chmodConv, wsFreeB]
  show List.all _ _ = true
  simp only [List.all_cons, List.all_nil, Bool.and_true, Bool.and_eq_true,
    Bool.not_eq_true']
  exact ⟨isWS_ite _ _ _ (by decide) (by decide), isWS_ite _ _ _ (by decide) (by decide),
    isWS_ite _ _ _ (by decide) (by decide), isWS_ite _ _ _ (by decide) (by decide)⟩

theorem wsFreeB_append (a b : String) : wsFreeB (a ++ b) = (wsFreeB a && wsFreeB b) := by
  rw [wsFreeB, wsFreeB, wsFreeB, String.data_append, List.all_append]

theorem chmodString_wsFree (code : String) (d : Bool) : wsFreeB (chmodString code d) = true := by
  rw [chmodString, wsFreeB_append, wsFreeB_append]
  rw [chmodConv_wsFree, chmodConv_wsFree, chmodConv_wsFree]
  rfl

/-! ## Commands preserve well-formedness of the permission map -/

theorem makeDir_storeOK {s t : SysState} {a : String} {m : Msg} (h : StoreOK s.store)
    (haw : wsFreeB a = true) (hstep : makeDir s a = .ok t m) : StoreOK t.store := by
  unfold makeDir at hstep
  split at hstep
  · cases hstep
  · rename_i fs2 heq
    injection hstep with h1 h2
    rw [← h1]
    exact storeOK_set h (fsCreateDirectory_ok_ne heq) haw (by decide)
  · injection hstep with h1 h2
    rw [← h1]
    exact h

theorem removeDir_storeOK {s t : SysState} {a : String} {m : Msg} (h : StoreOK s.store)
    (hstep : removeDir s a = .ok t m) : StoreOK t.store := by
  unfold removeDir at hstep
  split at hstep
  · injection hstep with h1 h2
    rw [← h1]
    exact h
  · split at hstep
    · injection hstep with h1 h2
      rw [← h1]
      exact h
    · split at hstep
      · injection hstep with h1 h2
        rw [← h1]
        exact storeOK_erase h a
      · injection hstep with h1 h2
        rw [← h1]
        exact h

theorem deleteFile_storeOK {s t : SysState} {a : String} {m : Msg} (h : StoreOK s.store)
    (hstep : deleteFile s a = .ok t m) : StoreOK t.store := by
  unfold deleteFile at hstep
  split at hstep
  · injection hstep with h1 h2
    rw [← h1]
    exact h
  · split at hstep
    · injection hstep with h1 h2
      rw [← h1]
      exact h
    · split at hstep
      · cases hstep
      · injection hstep with h1 h2
        rw [← h1]
        exact storeOK_erase h a

theorem chmodFile_storeOK {s t : SysState} {a b : String} {m : Msg} (h : StoreOK s.store)
    (haw : wsFreeB a = true) (hstep : chmodFile s a b = .ok t m) : StoreOK t.store := by
  unfold chmodFile at hstep
  split at hstep
  · injection hstep with h1 h2
    rw [← h1]
    exact h
  · rename_i hex
    split at hstep
    · injection hstep with h1 h2
      rw [← h1]
      exact h
    · injection hstep with h1 h2
      rw [← h1]
      refine storeOK_set h ?_ haw (chmodString_wsFree b _)
      have hex2 : fsExists s.fs a = true := by
        rcases hb : fsExists s.fs a with _ | _
        · rw [hb] at hex
          simp at hex
        · rfl
      exact (fsExists_true hex2).1

theorem showPerm_storeOK {s t : SysState} {a : String} {m : Msg} (h : StoreOK s.store)
    (hstep : showPerm s a = .ok t m) : StoreOK t.store := by
  unfold showPerm at hstep
  split at hstep <;>
    (injection hstep with h1 h2
     rw [← h1]
     exact h)

theorem copyFileCmd_storeOK {s t : SysState} {a b : String} {m : Msg} (h : StoreOK s.store)
    (hbw : wsFreeB b = true) (hstep : copyFileCmd s a b = .ok t m) : StoreOK t.store := by
  unfold copyFileCmd at hstep
  split at hstep
  · injection hstep with h1 h2
    rw [← h1]
    exact h
  · split at hstep
    · injection hstep with h1 h2
      rw [← h1]
      exact h
    · split at hstep
      · injection hstep with h1 h2
        rw [← h1]
        exact h
      · rename_i fs2 heq
        injection hstep with h1 h2
        rw [← h1]
        exact storeOK_set h (fsCopyFile_ok_ne heq) hbw (getPermission_wsFree h a)

theorem moveFileCmd_storeOK {s t : SysState} {a b : String} {m : Msg} (h : StoreOK s.store)
    (haw : wsFreeB a = true) (hbw : wsFreeB b = true)
    (hstep : moveFileCmd s a b = .ok t m) : StoreOK t.store := by
  unfold moveFileCmd at hstep
  split at hstep
  · injection hstep with h1 h2
    rw [← h1]
    exact h
  · rename_i hex
    split at hstep
    · injection hstep with h1 h2
      rw [← h1]
      exact h
    · split at hstep
      · injection hstep with h1 h2
        rw [← h1]
        exact h
      · rename_i fs2 heq
        injection hstep with h1 h2
        rw [← h1]
        have hex2 : fsExists s.fs a = true := by
          rcases hb : fsExists s.fs a with _ | _
          · rw [hb] at hex
            simp at hex
          · rfl
        have havw : wsFreeB (match s.store.get? a with
            | some w => w
            | none => "") = true := by
          rcases hg : s.store.get? a with _ | v
          · rfl
          · exact (entryOK_facts h (Store.get?_mem _ a v hg)).2.2
        refine storeOK_erase ?_ a
        refine storeOK_set ?_ (fsRename_ok_ne heq) hbw havw
        exact storeOK_set h (fsExists_true hex2).1 haw havw


/-! ## Loop-level invariants -/

theorem endIter_next {o : CmdOutcome} {s2 : SysState} (h : endIter o = .next s2) :
    ∃ t m, o = .ok t m ∧ s2 = { t with sudoMode := false } := by
  cases o with
  | ok t m =>
    refine ⟨t, m, rfl, ?_⟩
    injection h with h
    exact h.symm
  | crash => cases h

theorem endIter_next_sudo {o : CmdOutcome} {s2 : SysState} (h : endIter o = .next s2) :
    s2.sudoMode = false := by
  obtain ⟨t, m, _, hs2⟩ := endIter_next h
  rw [hs2]

/-- After any dispatched (non-empty, non-exit) command the loop's trailing
reset leaves `sudoMode` false; an empty command leaves the state untouched. -/
theorem dispatch_next_sudo {s s2 : SysState} {cmd a1 a2 : String}
    (hstep : dispatch s cmd a1 a2 = .next s2) : s2.sudoMode = false ∨ s2 = s := by
  unfold dispatch at hstep
  by_cases c0 : cmd = "exit"
  · rw [if_pos c0] at hstep
    cases hstep
  rw [if_neg c0] at hstep
  by_cases c1 : cmd = "ls"
  · rw [if_pos c1] at hstep
    exact Or.inl (endIter_next_sudo hstep)
  rw [if_neg c1] at hstep
  by_cases c2 : cmd = "mkdir"
  · rw [if_pos c2] at hstep
    exact Or.inl (endIter_next_sudo hstep)
  rw [if_neg c2] at hstep
  by_cases c3 : cmd = "rmdir"
  · rw [if_pos c3] at hstep
    exact Or.inl (endIter_next_sudo hstep)
  rw [if_neg c3] at hstep
  by_cases c4 : cmd = "del"
  · rw [if_pos c4] at hstep
    exact Or.inl (endIter_next_sudo hstep)
  rw [if_neg c4] at hstep
  by_cases c5 : cmd = "chmod"
  · rw [if_pos c5] at hstep
    exact Or.inl (endIter_next_sudo hstep)
  rw [if_neg c5] at hstep
  by_cases c6 : cmd = "perm"
  · rw [if_pos c6] at hstep
    exact Or.inl (endIter_next_sudo hstep)
  rw [if_neg c6] at hstep
  by_cases c7 : cmd = "cp"
  · rw [if_pos c7] at hstep
    exact Or.inl (endIter_next_sudo hstep)
  rw [if_neg c7] at hstep
  by_cases c8 : cmd = "mv"
  · rw [if_pos c8] at hstep
    exact Or.inl (endIter_next_sudo hstep)
  rw [if_neg c8] at hstep
  by_cases c9 : cmd = "help"
  · rw [if_pos c9] at hstep
    exact Or.inl (endIter_next_sudo hstep)
  rw [if_neg c9] at hstep
  by_cases c10 : cmd = "sudo"
  · rw [if_pos c10] at hstep
    exact Or.inl (endIter_next_sudo hstep)
  rw [if_neg c10] at hstep
  by_cases c11 : cmd = ""
  · rw [if_pos c11] at hstep
    injection hstep with h2
    exact Or.inr h2.symm
  rw [if_neg c11] at hstep
  exact Or.inl (endIter_next_sudo hstep)

/-- Every loop iteration preserves well-formedness of the permission map. -/
theorem dispatch_next_storeOK {s s2 : SysState} {cmd a1 a2 : String}
    (h : StoreOK s.store) (h1 : wsFreeB a1 = true) (h2 : wsFreeB a2 = true)
    (hstep : dispatch s cmd a1 a2 = .next s2) : StoreOK s2.store := by
  unfold dispatch at hstep
  by_cases c0 : cmd = "exit"
  · rw [if_pos c0] at hstep
    cases hstep
  rw [if_neg c0] at hstep
  by_cases c1 : cmd = "ls"
  · rw [if_pos c1] at hstep
    obtain ⟨t, m, ho, hs2⟩ := endIter_next hstep
    unfold listFiles at ho
    injection ho with e1 e2
    rw [hs2, ← e1]
    exact h
  rw [if_neg c1] at hstep
  by_cases c2 : cmd = "mkdir"
  · rw [if_pos c2] at hstep
    obtain ⟨t, m, ho, hs2⟩ := endIter_next hstep
    have hres := makeDir_storeOK h h1 ho
    rw [hs2]
    exact hres
  rw [if_neg c2] at hstep
  by_cases c3 : cmd = "rmdir"
  · rw [if_pos c3] at hstep
    obtain ⟨t, m, ho, hs2⟩ := endIter_next hstep
    have hres := removeDir_storeOK h ho
    rw [hs2]
    exact hres
  rw [if_neg c3] at hstep
  by_cases c4 : cmd = "del"
  · rw [if_pos c4] at hstep
    obtain ⟨t, m, ho, hs2⟩ := endIter_next hstep
    have hres := deleteFile_storeOK h ho
    rw [hs2]
    exact hres
  rw [if_neg c4] at hstep
  by_cases c5 : cmd = "chmod"
  · rw [if_pos c5] at hstep
    obtain ⟨t, m, ho, hs2⟩ := endIter_next hstep
    have hres := chmodFile_storeOK h h1 ho
    rw [hs2]
    exact hres
  rw [if_neg c5] at hstep
  by_cases c6 : cmd = "perm"
  · rw [if_pos c6] at hstep
    obtain ⟨t, m, ho, hs2⟩ := endIter_next hstep
    have hres := showPerm_storeOK h ho
    rw [hs2]
    exact hres
  rw [if_neg c6] at hstep
  by_cases c7 : cmd = "cp"
  · rw [if_pos c7] at hstep
    obtain ⟨t, m, ho, hs2⟩ := endIter_next hstep
    have hres := copyFileCmd_storeOK h h2 ho
    rw [hs2]
    exact hres
  rw [if_neg c7] at hstep
  by_cases c8 : cmd = "mv"
  · rw [if_pos c8] at hstep
    obtain ⟨t, m, ho, hs2⟩ := endIter_next hstep
    have hres := moveFileCmd_storeOK h h1 h2 ho
    rw [hs2]
    exact hres
  rw [if_neg c8] at hstep
  by_cases c9 : cmd = "help"
  · rw [if_pos c9] at hstep
    obtain ⟨t, m, ho, hs2⟩ := endIter_next hstep
    injection ho with e1 e2
    rw [hs2, ← e1]
    exact h
  rw [if_neg c9] at hstep
  by_cases c10 : cmd = "sudo"
  · rw [if_pos c10] at hstep
    obtain ⟨t, m, ho, hs2⟩ := endIter_next hstep
    injection ho with e1 e2
    rw [hs2, ← e1]
    exact h
  rw [if_neg c10] at hstep
  by_cases c11 : cmd = ""
  · rw [if_pos c11] at hstep
    injection hstep with e
    rw [← e]
    exact h
  rw [if_neg c11] at hstep
  obtain ⟨t, m, ho, hs2⟩ := endIter_next hstep
  injection ho with e1 e2
  rw [hs2, ← e1]
  exact h

/-- The session invariant: a well-formed permission map and `sudoMode` off at
the top of every loop iteration. -/
def LoopInv (s : SysState) : Prop := StoreOK s.store ∧ s.sudoMode = false

theorem iterate_next_inv {s s2 : SysState} {line : String} (h : LoopInv s)
    (hstep : iterate s line = .next s2) : LoopInv s2 := by
  rw [iterate] at hstep
  have htok := tokenize_tokens line
  have h1 := getD_token_wsFree htok 1
  have h2 := getD_token_wsFree htok 2
  refine ⟨dispatch_next_storeOK h.1 h1 h2 hstep, ?_⟩
  rcases dispatch_next_sudo hstep with hf | he
  · exact hf
  · rw [he]
    exact h.2

theorem runLines_inv : ∀ (lines : List String) (s s2 : SysState), LoopInv s →
    runLines s lines = .running s2 → LoopInv s2
  | [], s, s2, h, hrun => by
    injection hrun with e
    rw [← e]
    exact h
  | line :: rest, s, s2, h, hrun => by
    rw [runLines] at hrun
    rcases hit : iterate s line with s3 | _ | _
    · rw [hit] at hrun
      exact runLines_inv rest s3 s2 (iterate_next_inv h hit) hrun
    · rw [hit] at hrun
      cases hrun
    · rw [hit] at hrun
      cases hrun

theorem initState_inv (fs0 : FS) : LoopInv (initState fs0) :=
  ⟨⟨List.Pairwise.nil, rfl⟩, rfl⟩

/-- Every reachable session state satisfies the invariant. -/
theorem reachable_inv {s : SysState} (h : ReachableState s) : LoopInv s := by
  obtain ⟨fs0, lines, hrun⟩ := h
  exact runLines_inv lines (initState fs0) s (initState_inv fs0) hrun

/-! ## Which commands can abort the process -/

theorem endIter_crashed {o : CmdOutcome} (h : endIter o = .crashed) : o = .crash := by
  cases o with
  | ok t m => cases h
  | crash => rfl

theorem listFiles_ne_crash (s : SysState) : listFiles s ≠ .crash := by
  rw [listFiles]
  intro h
  cases h

theorem removeDir_ne_crash (s : SysState) (a : String) : removeDir s a ≠ .crash := by
  unfold removeDir
  repeat' split
  all_goals intro h
  all_goals cases h

theorem chmodFile_ne_crash (s : SysState) (a b : String) : chmodFile s a b ≠ .crash := by
  unfold chmodFile
  repeat' split
  all_goals intro h
  all_goals cases h

theorem showPerm_ne_crash (s : SysState) (a : String) : showPerm s a ≠ .crash := by
  unfold showPerm
  repeat' split
  all_goals intro h
  all_goals cases h

theorem copyFileCmd_ne_crash (s : SysState) (a b : String) : copyFileCmd s a b ≠ .crash := by
  unfold copyFileCmd
  repeat' split
  all_goals intro h
  all_goals cases h

theorem moveFileCmd_ne_crash (s : SysState) (a b : String) : moveFileCmd s a b ≠ .crash := by
  unfold moveFileCmd
  repeat' split
  all_goals intro h
  all_goals cases h

theorem fsRemove_error_iff (fs : FS) (a : String) :
    fsRemove fs a = .error () ↔ fs.get? a = some (.dir false) := by
  unfold fsRemove
  rcases hg : fs.get? a with _ | e
  · simp
  · rcases e with _ | b
    · simp
    · cases b <;> simp

/-- `mkdir` aborts exactly when the underlying create throws: on an empty
name, or on a name that already exists as a regular file. -/
theorem makeDir_crash_iff (s : SysState) (a : String) :
    makeDir s a = .crash ↔ (a = "" ∨ s.fs.get? a = some .file) := by
  unfold makeDir fsCreateDirectory
  by_cases h : a = ""
  · rw [if_pos h]
    simp [h]
  · rw [if_neg h]
    rcases hg : s.fs.get? a with _ | e
    · simp [h, hg]
    · rcases e with _ | b
      · simp [h, hg]
      · simp [h, hg]

/-- `del` denied: target exists, no sudo, stored 3rd character is not `w`. -/
theorem deleteFile_denied {s : SysState} {name : String} (hex : fsExists s.fs name = true)
    (hsudo : s.sudoMode = false) (hperm : strAt (getPermission s.store name) 2 ≠ 'w') :
    deleteFile s name = .ok s .permissionDenied := by
  unfold deleteFile
  rw [if_neg (by simp [hex])]
  rw [if_pos (by simp [hsudo, bne_iff_ne, hperm])]

/-- `del` success: target exists, the permission gate passes, and the target
is not a non-empty directory (which would make `fs::remove` throw). -/
theorem deleteFile_success {s : SysState} {name : String} (hex : fsExists s.fs name = true)
    (hcond : (!s.sudoMode && strAt (getPermission s.store name) 2 != 'w') = false)
    (hnz : s.fs.get? name ≠ some (.dir false)) :
    deleteFile s name =
      .ok { s with
          fs := s.fs.erase name,
          store := s.store.erase name,
          disk := savePermissions (s.store.erase name) } .deleted := by
  unfold deleteFile
  rw [if_neg (by simp [hex])]
  rw [if_neg (by simp [hcond])]
  unfold fsRemove
  rcases hg : s.fs.get? name with _ | e
  · exfalso
    have := (fsExists_true hex).2
    rw [hg] at this
    cases this
  · rcases e with _ | b
    · rfl
    · cases b
      · exact absurd hg hnz
      · rfl

/-- `del` aborts exactly on an existing, permission-cleared, non-empty
directory. -/
theorem deleteFile_crash_iff (s : SysState) (name : String) :
    deleteFile s name = .crash ↔
      fsExists s.fs name = true ∧
      (s.sudoMode || strAt (getPermission s.store name) 2 == 'w') = true ∧
      s.fs.get? name = some (.dir false) := by
  unfold deleteFile
  by_cases h1 : fsExists s.fs name = true
  · rw [if_neg (by simp [h1])]
    by_cases h2 : (s.sudoMode || strAt (getPermission s.store name) 2 == 'w') = true
    · have hd : (!s.sudoMode && strAt (getPermission s.store name) 2 != 'w') = false := by
        cases hs : s.sudoMode <;>
          cases he : (strAt (getPermission s.store name) 2 == 'w') <;>
          simp_all [bne]
      rw [if_neg (by simp [hd])]
      unfold fsRemove
      rcases hg : s.fs.get? name with _ | e
      · simp [h1, h2]
      · rcases e with _ | b
        · simp [h1, h2]
        · cases b <;> simp [h1, h2]
    · have hd : (!s.sudoMode && strAt (getPermission s.store name) 2 != 'w') = true := by
        cases hs : s.sudoMode <;>
          cases he : (strAt (getPermission s.store name) 2 == 'w') <;>
          simp_all [bne]
      rw [if_pos hd]
      simp [h2]
  · rw [if_pos (by simp [h1])]
    simp [h1]

/-- Only `mkdir` (on a throwing create: empty name, or a name existing as a
regular file) and `del` (on a permission-cleared non-empty directory) can
abort an iteration. -/
theorem dispatch_crashed {s : SysState} {cmd a1 a2 : String}
    (hstep : dispatch s cmd a1 a2 = .crashed) :
    (cmd = "mkdir" ∧ (a1 = "" ∨ s.fs.get? a1 = some .file)) ∨
    (cmd = "del" ∧ s.fs.get? a1 = some (.dir false) ∧
      (s.sudoMode || strAt (getPermission s.store a1) 2 == 'w') = true) := by
  unfold dispatch at hstep
  by_cases c0 : cmd = "exit"
  · rw [if_pos c0] at hstep
    cases hstep
  rw [if_neg c0] at hstep
  by_cases c1 : cmd = "ls"
  · rw [if_pos c1] at hstep
    exact absurd (endIter_crashed hstep) (listFiles_ne_crash s)
  rw [if_neg c1] at hstep
  by_cases c2 : cmd = "mkdir"
  · rw [if_pos c2] at hstep
    exact Or.inl ⟨c2, (makeDir_crash_iff s a1).mp (endIter_crashed hstep)⟩
  rw [if_neg c2] at hstep
  by_cases c3 : cmd = "rmdir"
  · rw [if_pos c3] at hstep
    exact absurd (endIter_crashed hstep) (removeDir_ne_crash s a1)
  rw [if_neg c3] at hstep
  by_cases c4 : cmd = "del"
  · rw [if_pos c4] at hstep
    obtain ⟨_, hcond, hdir⟩ := (deleteFile_crash_iff s a1).mp (endIter_crashed hstep)
    exact Or.inr ⟨c4, hdir, hcond⟩
  rw [if_neg c4] at hstep
  by_cases c5 : cmd = "chmod"
  · rw [if_pos c5] at hstep
    exact absurd (endIter_crashed hstep) (chmodFile_ne_crash s a1 a2)
  rw [if_neg c5] at hstep
  by_cases c6 : cmd = "perm"
  · rw [if_pos c6] at hstep
    exact absurd (endIter_crashed hstep) (showPerm_ne_crash s a1)
  rw [if_neg c6] at hstep
  by_cases c7 : cmd = "cp"
  · rw [if_pos c7] at hstep
    exact absurd (endIter_crashed hstep) (copyFileCmd_ne_crash s a1 a2)
  rw [if_neg c7] at hstep
  by_cases c8 : cmd = "mv"
  · rw [if_pos c8] at hstep
    exact absurd (endIter_crashed hstep) (moveFileCmd_ne_crash s a1 a2)
  rw [if_neg c8] at hstep
  by_cases c9 : cmd = "help"
  · rw [if_pos c9] at hstep
    cases endIter_crashed hstep
  rw [if_neg c9] at hstep
  by_cases c10 : cmd = "sudo"
  · rw [if_pos c10] at hstep
    cases endIter_crashed hstep
  rw [if_neg c10] at hstep
  by_cases c11 : cmd = ""
  · rw [if_pos c11] at hstep
    cases hstep
  rw [if_neg c11] at hstep
  cases endIter_crashed hstep

/-- Round trip for a well-formed permission map with nonempty values. -/
theorem roundtrip_of_storeOK {st : Store} (h : StoreOK st)
    (hval : st.all (fun p => p.2 != "") = true) :
    loadPermissions (savePermissions st) = st := by
  refine roundtrip_of_ok st h.1 ?_
  intro p hp
  obtain ⟨hk, hkw, hvw⟩ := entryOK_facts h hp
  have hv := List.all_eq_true.mp hval p hp
  exact ⟨hk, hkw, by simpa using hv, hvw⟩

/-- The 12 characters of the string `chmodFile` computes, position by
position. -/
theorem chmodString_data (code : String) (d : Bool) :
    (chmodString code d).data =
      [if d then 'd' else '-',
       if Int.land (((strAt code 0).toNat : Int) - 48) 4 ≠ 0 then 'r' else '-',
       if Int.land (((strAt code 0).toNat : Int) - 48) 2 ≠ 0 then 'w' else '-',
       if Int.land (((strAt code 0).toNat : Int) - 48) 1 ≠ 0 then 'x' else '-',
       '-',
       if Int.land (((strAt code 1).toNat : Int) - 48) 4 ≠ 0 then 'r' else '-',
       if Int.land (((strAt code 1).toNat : Int) - 48) 2 ≠ 0 then 'w' else '-',
       if Int.land (((strAt code 1).toNat : Int) - 48) 1 ≠ 0 then 'x' else '-',
       '-',
       if Int.land (((strAt code 2).toNat : Int) - 48) 4 ≠ 0 then 'r' else '-',
       if Int.land (((strAt code 2).toNat : Int) - 48) 2 ≠ 0 then 'w' else '-',
       if Int.land (((strAt code 2).toNat : Int) - 48) 1 ≠ 0 then 'x' else '-'] := by
  rw [chmodString, String.data_append, String.data_append]
  rw [chmodConv, chmodConv, chmodConv]
  rfl

/-! ## Concrete session states used to instantiate and refute the claims -/

/-- A session holding one file `f` whose stored permission `-r---r---r--`
(the result of `chmod f 444`) has no write flag in position 2. -/
def c1State : SysState :=
  { fs := [("f", FSEntry.file)], store := [("f", "-r---r---r--")], sudoMode := false,
    disk := "f -r---r---r--\n" }

/-- A session holding one file `a` that has no permission-map entry. -/
def c2State : SysState :=
  { fs := [("a", FSEntry.file)], store := [], sudoMode := false, disk := "" }

/-- A session holding a stored entry for `a`, for the mv witness. -/
def c2wState : SysState :=
  { fs := [("a", FSEntry.file)], store := [("a", "drwxr-xr-x")], sudoMode := false,
    disk := "a drwxr-xr-x\n" }

/-- The state `mv a b` produces from `c2wState`. -/
def c2wResult : SysState :=
  { fs := [("b", FSEntry.file)], store := [("b", "drwxr-xr-x")], sudoMode := false,
    disk := "b drwxr-xr-x\n" }

/-- A session holding one non-empty directory `d` with no stored entry. -/
def c3State : SysState :=
  { fs := [("d", FSEntry.dir false)], store := [], sudoMode := false, disk := "" }

/-- A session holding one empty directory `d` with no stored entry. -/
def c10State : SysState :=
  { fs := [("d", FSEntry.dir true)], store := [], sudoMode := false, disk := "" }

/-- A session holding one file `f` with no stored entry. -/
def c6State : SysState :=
  { fs := [("f", FSEntry.file)], store := [], sudoMode := false, disk := "" }

/-- A session holding `s.txt` whose stored permission `--wx--wx--wx`
(the result of `chmod s.txt 333`) has no read flag in position 1. -/
def c8State : SysState :=
  { fs := [("s.txt", FSEntry.file)], store := [("s.txt", "--wx--wx--wx")],
    sudoMode := false, disk := "s.txt --wx--wx--wx\n" }

/-! ## The claims -/

/-- C1: the claim says `sudo` makes the very next dispatched command run
with `sudoMode = true`.  The code resets `sudoMode` at the bottom of the
loop body — including at the end of the `sudo` iteration itself — so the
next command always runs with `sudoMode = false`.  Concretely: with `f`
stored read-only, the input `sudo` followed by `del f` leaves the session
completely unchanged (`del` is permission-denied), whereas a `del` that
actually ran with `sudoMode = true`, as the claim asserts, would delete `f`
and erase its entry. -/
theorem C1_sudo_reset_bug :
    runLines c1State ["sudo", "del f"] = .running c1State ∧
    deleteFile { c1State with sudoMode := true } "f" =
      .ok { fs := [], store := [], sudoMode := true, disk := "" } .deleted := by
  constructor
  · decide
  · decide

/-- C2 counterexample: a successful `mv a b` where `a` has no permission
entry maps `b` to the empty string — `permissions[dest] = permissions[src]`
uses `operator[]`, which default-constructs `""` — not to the fallback
literal `"-rw-r--r--"` that `get(SRC)` would have produced. -/
theorem C2_counterexample :
    moveFileCmd c2State "a" "b" =
      .ok { fs := [("b", FSEntry.file)], store := [("b", "")], sudoMode := false,
            disk := "b \n" } .moved ∧
    Store.get? [("b", "")] "b" ≠ some "-rw-r--r--" := by
  constructor
  · decide
  · decide

/-- C2 (amended): after a successful `mv SRC DEST` with `SRC ≠ DEST`, the
store maps `DEST` to the stored permission of `SRC` when `SRC` had an entry
and to the empty string (not the fallback literal) when it had none, and the
entry for `SRC` is erased. -/
theorem C2_mv_store {s : SysState} {src dest : String} {s2 : SysState}
    (hne : src ≠ dest) (h : moveFileCmd s src dest = .ok s2 .moved) :
    s2.store.get? dest = some ((s.store.get? src).getD "") ∧
    s2.store.get? src = none := by
  unfold moveFileCmd at h
  split at h
  · injection h with e1 e2
    cases e2
  · split at h
    · injection h with e1 e2
      cases e2
    · split at h
      · injection h with e1 e2
        cases e2
      · injection h with e1 e2
        rw [← e1]
        constructor
        · rw [Store.get?_erase_ne _ _ _ (Ne.symm hne), Store.get?_set_self]
          rcases hg : s.store.get? src with _ | w <;> simp [hg]
        · exact Store.get?_erase_self _ src

/-- C2 witness: the amended statement evaluated on a stored source entry. -/
theorem C2_mv_store_witness :
    c2wResult.store.get? "b" = some ((c2wState.store.get? "a").getD "") ∧
    c2wResult.store.get? "a" = none :=
  C2_mv_store (by decide) (by decide)

/-- C3 counterexample: the claim says no command ever terminates the process
abnormally, naming `del` on a non-empty directory.  On a session whose
directory `d` is non-empty (and write-permitted by the fallback), the single
input `del d` aborts the run: `fs::remove` throws and `deleteFile` has no
`try`/`catch`. -/
theorem C3_counterexample : runLines c3State ["del d"] = .crashed := by decide

/-- C3 (amended): every command other than `mkdir` and `del` always
completes (possibly printing an error), and the loop continues; an iteration
aborts the process only when `mkdir`'s underlying create throws — an empty
name, or a name that already exists as a regular file — or when `del`
reaches `fs::remove` on an existing, permission-cleared, non-empty
directory. -/
theorem C3_crash_only_del_mkdir {s : SysState} {line : String}
    (h : iterate s line = .crashed) :
    ((tokenize line).getD 0 "" = "mkdir" ∧
      ((tokenize line).getD 1 "" = "" ∨
        s.fs.get? ((tokenize line).getD 1 "") = some .file)) ∨
    ((tokenize line).getD 0 "" = "del" ∧
      s.fs.get? ((tokenize line).getD 1 "") = some (.dir false) ∧
      (s.sudoMode || strAt (getPermission s.store ((tokenize line).getD 1 "")) 2 == 'w')
        = true) := by
  rw [iterate] at h
  exact dispatch_crashed h

/-- C3 witness: the characterization applied to the aborting `del d` on the
non-empty-directory session. -/
theorem C3_crash_witness :
    ((tokenize "del d").getD 0 "" = "mkdir" ∧
      ((tokenize "del d").getD 1 "" = "" ∨
        c3State.fs.get? ((tokenize "del d").getD 1 "") = some .file)) ∨
    ((tokenize "del d").getD 0 "" = "del" ∧
      c3State.fs.get? ((tokenize "del d").getD 1 "") = some (.dir false) ∧
      (c3State.sudoMode ||
        strAt (getPermission c3State.store ((tokenize "del d").getD 1 "")) 2 == 'w')
        = true) :=
  C3_crash_only_del_mkdir (by decide)

/-- C4 counterexample: the store `[("b", "")]` is reachable (run `mv a b` in
a directory holding an unstored file `a`), its saved file is `"b \n"`, and a
fresh load of that file yields no entry for `b` — the round trip does not
reproduce the name-to-permission mapping. -/
theorem C4_counterexample :
    ReachableStore [("b", "")] ∧
    (loadPermissions (savePermissions [("b", "")])).get? "b" ≠
      Store.get? [("b", "")] "b" := by
  constructor
  · exact ⟨{ fs := [("b", FSEntry.file)], store := [("b", "")], sudoMode := false, disk := "b \n" },
      ⟨[("a", FSEntry.file)], ["mv a b"], by decide⟩, rfl⟩
  · decide

/-- C4 (amended): for every reachable Permission Store state in which no
stored permission is the empty string, `save()` followed by a fresh `load()`
reproduces the store exactly.  (Reachable stores always have nonempty,
whitespace-free names and whitespace-free values; the only reachable
violation of the round trip is the empty value produced by `mv` of an
unstored source, per the counterexample.) -/
theorem C4_roundtrip {st : Store} (h : ReachableStore st)
    (hval : st.all (fun p => p.2 != "") = true) :
    loadPermissions (savePermissions st) = st := by
  obtain ⟨s, hs, hstore⟩ := h
  have hinv := reachable_inv hs
  refine roundtrip_of_storeOK ?_ hval
  rw [← hstore]
  exact hinv.1

/-- C4 witness: the reachable store created by `mkdir d` round-trips. -/
theorem C4_roundtrip_witness :
    loadPermissions (savePermissions [("d", "drwxr-xr-x")]) = [("d", "drwxr-xr-x")] :=
  C4_roundtrip
    ⟨{ fs := [("d", FSEntry.dir true)], store := [("d", "drwxr-xr-x")],
        sudoMode := false, disk := "d drwxr-xr-x\n" },
      ⟨[], ["mkdir d"], by decide⟩, rfl⟩
    (by decide)

/-- C5 counterexample: the claim says that whenever the permission gate
passes, `del X` "removes X and erases X's store entry"; on the non-empty
directory `d` (write-permitted by the fallback), `del` instead reaches the
throwing `fs::remove` and aborts the process. -/
theorem C5_counterexample : deleteFile c3State "d" = .crash := by decide

/-- C5 (amended): for an existing `X`, `del X` is permission-denied and
changes nothing when `sudoMode` is false and the 3rd character of `get(X)`
is not `w`; otherwise (sudo, or 3rd character `w`) — provided `X` is not a
non-empty directory, on which the underlying remove throws and aborts the
process — it removes `X`, erases `X`'s store entry, and rewrites the disk
file. -/
theorem C5_del {s : SysState} {name : String} (hex : fsExists s.fs name = true) :
    (s.sudoMode = false → strAt (getPermission s.store name) 2 ≠ 'w' →
      deleteFile s name = .ok s .permissionDenied) ∧
    ((s.sudoMode = true ∨ strAt (getPermission s.store name) 2 = 'w') →
      s.fs.get? name ≠ some (.dir false) →
      deleteFile s name =
        .ok { s with
            fs := s.fs.erase name,
            store := s.store.erase name,
            disk := savePermissions (s.store.erase name) } .deleted) := by
  constructor
  · intro hsudo hperm
    exact deleteFile_denied hex hsudo hperm
  · intro hperm hnz
    refine deleteFile_success hex ?_ hnz
    rcases hperm with hs | hw
    · simp [hs]
    · simp [hw]

/-- C5 witness: `del f` on the read-only stored file `f` without sudo is
denied and leaves the session unchanged. -/
theorem C5_del_witness : deleteFile c1State "f" = .ok c1State .permissionDenied :=
  (C5_del (by decide)).1 (by decide) (by decide)

/-- C7: for every name absent from the Permission Store, `get` returns
exactly the fallback literal `"-rw-r--r--"`; `getPermission` is a total pure
function of the store and name, so it never fails and never modifies the
store. -/
theorem C7_get_fallback (st : Store) (name : String) (h : st.get? name = none) :
    getPermission st name = "-rw-r--r--" := by
  unfold getPermission
  rw [h]

/-- C7 witness: the fallback on the empty store. -/
theorem C7_get_fallback_witness : getPermission [] "a.txt" = "-rw-r--r--" :=
  C7_get_fallback [] "a.txt" rfl

/-- C8: `cp SRC DEST` with an existing `SRC`, `sudoMode` off, and a stored
permission whose 2nd character is not `r` reports permission denied and
returns the session state unchanged — `DEST` is not created and neither the
in-memory store nor the disk file is touched. -/
theorem C8_cp_denied {s : SysState} {src dest : String}
    (hex : fsExists s.fs src = true) (hsudo : s.sudoMode = false)
    (hperm : strAt (getPermission s.store src) 1 ≠ 'r') :
    copyFileCmd s src dest = .ok s .permissionDeniedNoRead := by
  unfold copyFileCmd
  rw [if_neg (by simp [hex])]
  rw [if_pos (by simp [hsudo, bne_iff_ne, hperm])]

/-- C8 witness: copying the no-read file `s.txt` is denied, unchanged. -/
theorem C8_cp_denied_witness :
    copyFileCmd c8State "s.txt" "d.txt" = .ok c8State .permissionDeniedNoRead :=
  C8_cp_denied (by decide) (by decide) (by decide)

/-- C10: `del` never checks the file type, only existence, so an existing
empty directory whose permission gate passes (stored write flag, or sudo) is
removed and its store entry erased exactly like a file. -/
theorem C10_del_empty_dir {s : SysState} {name : String}
    (hdir : s.fs.get? name = some (.dir true)) (hname : name ≠ "")
    (hperm : s.sudoMode = true ∨ strAt (getPermission s.store name) 2 = 'w') :
    deleteFile s name =
      .ok { s with
          fs := s.fs.erase name,
          store := s.store.erase name,
          disk := savePermissions (s.store.erase name) } .deleted := by
  have hex : fsExists s.fs name = true := by
    rw [fsExists, hdir]
    simp [hname]
  refine deleteFile_success hex ?_ (by rw [hdir]; intro hc; injection hc with hc; cases hc)
  rcases hperm with hs | hw
  · simp [hs]
  · simp [hw]

/-- C10 witness: deleting the empty directory `d` (fallback permission has
the write flag) removes it and erases its entry. -/
theorem C10_del_empty_dir_witness :
    deleteFile c10State "d" =
      .ok { c10State with
          fs := c10State.fs.erase "d",
          store := c10State.store.erase "d",
          disk := savePermissions (c10State.store.erase "d") } .deleted :=
  C10_del_empty_dir (by decide) (by decide) (by decide)

/-- C6: for an existing name and a 3-character code, `chmod` stores the
12-character concatenation of three 4-character groups: the type flag is
`d` exactly when the target is a directory and only in the first group
(positions 4 and 8 hold `-`), and within each group the characters decode
`r`/`w`/`x` from bits 4, 2, 1 of the code character minus `'0'`; in
particular `chmod X 755` on a non-directory stores `-rwx-r-x-r-x`. -/
theorem C6_chmod {s : SysState} {name code : String}
    (hex : fsExists s.fs name = true) (hlen : code.length = 3) :
    chmodFile s name code =
      .ok { s with
          store := s.store.set name (chmodString code (fsIsDirectory s.fs name)),
          disk := savePermissions
            (s.store.set name (chmodString code (fsIsDirectory s.fs name))) }
        .chmodChanged ∧
    (chmodString code (fsIsDirectory s.fs name)).length = 12 ∧
    (strAt (chmodString code (fsIsDirectory s.fs name)) 0 = 'd' ↔
      fsIsDirectory s.fs name = true) ∧
    strAt (chmodString code (fsIsDirectory s.fs name)) 4 = '-' ∧
    strAt (chmodString code (fsIsDirectory s.fs name)) 8 = '-' ∧
    (∀ i : Fin 3,
      strAt (chmodString code (fsIsDirectory s.fs name)) (4 * i.val + 1) =
        (if Int.land (((strAt code i.val).toNat : Int) - 48) 4 ≠ 0 then 'r' else '-') ∧
      strAt (chmodString code (fsIsDirectory s.fs name)) (4 * i.val + 2) =
        (if Int.land (((strAt code i.val).toNat : Int) - 48) 2 ≠ 0 then 'w' else '-') ∧
      strAt (chmodString code (fsIsDirectory s.fs name)) (4 * i.val + 3) =
        (if Int.land (((strAt code i.val).toNat : Int) - 48) 1 ≠ 0 then 'x' else '-')) ∧
    chmodString "755" false = "-rwx-r-x-r-x" := by
  refine ⟨?_, ?_, ?_, ?_, ?_, ?_, by decide⟩
  · unfold chmodFile
    rw [if_neg (by simp [hex])]
    rw [if_neg (by simp [hlen])]
  · show (chmodString code (fsIsDirectory s.fs name)).data.length = 12
    rw [chmodString_data]
    rfl
  · rw [strAt, chmodString_data]
    cases fsIsDirectory s.fs name <;> simp
  · rw [strAt, chmodString_data]
    rfl
  · rw [strAt, chmodString_data]
    rfl
  · intro i
    fin_cases i <;>
      exact ⟨by simp [strAt, chmodString_data], by simp [strAt, chmodString_data],
        by simp [strAt, chmodString_data]⟩

/-- C6 witness: `chmod f 755` on the non-directory `f`. -/
theorem C6_chmod_witness :
    chmodFile c6State "f" "755" =
      .ok { c6State with
          store := c6State.store.set "f" (chmodString "755" (fsIsDirectory c6State.fs "f")),
          disk := savePermissions
            (c6State.store.set "f" (chmodString "755" (fsIsDirectory c6State.fs "f"))) }
        .chmodChanged :=
  (C6_chmod (by decide) (by decide)).1

/-- C9: on an empty command token the iteration skips dispatch and re-loops
with the state unchanged (`continue` — which in fact skips the trailing
reset statement), and `sudoMode` is nevertheless false at the end of that
iteration, because it is false at the top of every reachable iteration. -/
theorem C9_empty_cmd {s : SysState} {line : String} (hreach : ReachableState s)
    (hempty : (tokenize line).getD 0 "" = "") :
    iterate s line = .next s ∧ s.sudoMode = false := by
  constructor
  · rw [iterate, hempty]
    rfl
  · exact (reachable_inv hreach).2

/-- C9 witness: a blank input line on the freshly started session. -/
theorem C9_empty_cmd_witness :
    iterate (initState []) "   " = .next (initState []) ∧
    (initState []).sudoMode = false :=
  C9_empty_cmd ⟨[], [], rfl⟩ (by decide)
